import Mathlib

/-!
A shallow embedding of the memcached-subset server in `src/python/memcached.py`
(message codec `Message.readfrom` / `Message.writeto`, the `HashTable` store,
and the `RequestHandler` dispatch), together with theorems checking the
specification's claims against it.

Bytes are modelled as natural numbers, byte strings as lists, and a socket
stream as the list of bytes still to be read.  `struct` pack/unpack is spelled
out with explicit big-endian arithmetic.  Fallible Python code (a `raise`) is
modelled with explicit result types; where an exception escapes after the
object was mutated in place, the result carries the mutated state.
-/

namespace Memcached

/-- A byte (0..255 in all states the program produces). -/
abbrev Byte := Nat

/-- Wire message, mirroring `class Message`.  The field `opaq` stands for the
source's `opaque` attribute; `opaq` and `cas` are kept as raw byte strings
exactly as `struct.unpack('!BBHBBHI4s8s', header)` yields them (formats `4s`
and `8s`). -/
structure Message where
  magic : Nat
  opcode : Nat
  keylen : Nat
  extralen : Nat
  datatype : Nat
  status : Nat
  bodylen : Nat
  opaq : List Byte
  cas : List Byte
  extra : List Byte
  key : List Byte
  value : List Byte
deriving DecidableEq

/-- `Message.__init__`: all numeric fields `0`, all string fields `''`. -/
def Message.init : Message :=
  { magic := 0, opcode := 0, keylen := 0, extralen := 0, datatype := 0,
    status := 0, bodylen := 0, opaq := [], cas := [], extra := [], key := [],
    value := [] }

/-- The `RuntimeError` messages `Message.readfrom` can raise. -/
inductive ReadErr where
  | header      -- 'incorrect header'
  | packet      -- 'incorrect packet'
  | extraShort  -- 'incorrect extralen'
  | keyShort    -- 'incorrect keylen'
  | tooLarge    -- 'value too large'
  | bodyShort   -- 'incorrect bodylen'
deriving DecidableEq

/-- Result of `Message.readfrom`: `None` on a closed connection, an exception,
or a message together with the unread remainder of the stream. -/
inductive ReadResult where
  | eos
  | err (e : ReadErr)
  | ok (m : Message) (rest : List Byte)
deriving DecidableEq

/-- `Message.readfrom(rfile)`.  `rfile.read(n)` is modelled as taking up to
`n` bytes off the front of the stream. -/
def readfrom (s : List Byte) : ReadResult :=
  let header := s.take 24
  if header = [] then ReadResult.eos
  else if header.length < 24 then ReadResult.err ReadErr.header
  else
    -- struct.unpack('!BBHBBHI4s8s', header)
    let magic := header.getD 0 0
    let opcode := header.getD 1 0
    let keylen := header.getD 2 0 * 256 + header.getD 3 0
    let extralen := header.getD 4 0
    let datatype := header.getD 5 0
    let status := header.getD 6 0 * 256 + header.getD 7 0
    let bodylen := ((header.getD 8 0 * 256 + header.getD 9 0) * 256
                     + header.getD 10 0) * 256 + header.getD 11 0
    let opaq := (header.drop 12).take 4
    let cas := (header.drop 16).take 8
    let s1 := s.drop 24
    if magic ≠ 0x80 ∧ magic ≠ 0x81 then ReadResult.err ReadErr.packet
    else
      let extra := if extralen ≠ 0 then s1.take extralen else []
      if extra.length < extralen then ReadResult.err ReadErr.extraShort
      else
        let s2 := if extralen ≠ 0 then s1.drop extralen else s1
        let key := if keylen ≠ 0 then s2.take keylen else []
        if key.length < keylen then ReadResult.err ReadErr.keyShort
        else
          let s3 := if keylen ≠ 0 then s2.drop keylen else s2
          if bodylen > extralen + keylen then
            let vlen := bodylen - extralen - keylen
            if vlen > 10000000 then ReadResult.err ReadErr.tooLarge
            else
              let v := s3.take vlen
              if v.length < vlen then ReadResult.err ReadErr.bodyShort
              else ReadResult.ok
                ⟨magic, opcode, keylen, extralen, datatype, status, bodylen,
                 opaq, cas, extra, key, v⟩ (s3.drop vlen)
          else ReadResult.ok
            ⟨magic, opcode, keylen, extralen, datatype, status, bodylen,
             opaq, cas, extra, key, []⟩ s3

/-- `struct.pack('!H', n)` (defined for `n < 2^16`). -/
def pack16 (n : Nat) : List Byte := [n / 256, n % 256]

/-- `struct.pack('!I', n)` (defined for `n < 2^32`). -/
def pack32 (n : Nat) : List Byte :=
  [n / 16777216, n / 65536 % 256, n / 256 % 256, n % 256]

/-- `struct.pack('!ns', s)`: the string is truncated or padded with null
bytes to exactly `n` bytes. -/
def packBytes (n : Nat) (s : List Byte) : List Byte :=
  s.take n ++ List.replicate (n - s.length) 0

/-- The 24-byte header produced by
`struct.pack('!BBHBBHI4s8s', magic, opcode, keylen, extralen, datatype,
status, bodylen, opaque, cas)`. -/
def packHeader (m : Message) : List Byte :=
  [m.magic, m.opcode] ++ pack16 m.keylen ++ [m.extralen, m.datatype]
    ++ pack16 m.status ++ pack32 m.bodylen
    ++ packBytes 4 m.opaq ++ packBytes 8 m.cas

/-- `Message.writeto(wfile)`: one write of header + extra + key, then one
write of the value; the produced byte stream is their concatenation. -/
def writeto (m : Message) : List Byte :=
  (packHeader m ++ m.extra ++ m.key) ++ m.value

/-- Well-formedness of a message for the round-trip law: valid magic, all
packed fields within their `struct` ranges, length fields consistent with the
byte strings, and the value within the framing cap. -/
def Wellformed (m : Message) : Prop :=
  (m.magic = 0x80 ∨ m.magic = 0x81) ∧ m.opcode < 256 ∧
  m.keylen = m.key.length ∧ m.keylen < 65536 ∧
  m.extralen = m.extra.length ∧ m.extralen < 256 ∧
  m.datatype < 256 ∧ m.status < 65536 ∧
  m.bodylen = m.extralen + m.keylen + m.value.length ∧
  m.bodylen < 4294967296 ∧
  m.value.length ≤ 10000000 ∧
  m.opaq.length = 4 ∧ m.cas.length = 8

instance (m : Message) : Decidable (Wellformed m) := by
  unfold Wellformed; exact inferInstance

/-! ## The store (`class HashTable`) -/

/-- Keys are byte strings. -/
abbrev Key := List Byte

/-- A stored entry: `(flags, value)`. -/
abbrev Val := Nat × List Byte

/-- The `HashTable` state: the `OrderedDict` contents in insertion order
(oldest first), the `limit` (`None` = unlimited) and the running `size`. -/
structure HashTable where
  entries : List (Key × Val)
  limit : Option Nat
  size : Int
deriving DecidableEq

/-- `collections.OrderedDict.__getitem__` / `in`: find the value bound to a
key. -/
def findEntry (k : Key) : List (Key × Val) → Option Val
  | [] => none
  | (k', v) :: rest => if k' = k then some v else findEntry k rest

/-- `collections.OrderedDict.__delitem__`: remove the binding of a key. -/
def eraseKey (k : Key) : List (Key × Val) → List (Key × Val)
  | [] => []
  | (k', v) :: rest => if k' = k then rest else (k', v) :: eraseKey k rest

/-- Sum of `len(value)` over the entries (what `size` is meant to track). -/
def sumLen (es : List (Key × Val)) : Int :=
  es.foldr (fun e a => (e.2.2.length : Int) + a) 0

/-- Result of the eviction `while` loop in `HashTable.__setitem__`:
either the loop condition became false, or `OrderedDict.popitem` was called
on an empty dict and raised `KeyError`. -/
inductive EvictResult where
  | done (es : List (Key × Val)) (size : Int)
  | keyErr (es : List (Key × Val)) (size : Int)
deriving DecidableEq

/-- The loop
`while size + self.size > self.limit and self.size > 0: popitem(); ...`.
`collections.OrderedDict.popitem(self)` defaults to `last=True` and removes
the most recently inserted pair, i.e. the last element of `entries`; on an
empty dict it raises `KeyError`.  On the non-empty branch `getLast?` is
`some`, so the `getD` default is never used. -/
def evictLoop (limit : Nat) (newSize : Int) (es : List (Key × Val))
    (size : Int) : EvictResult :=
  if newSize + size > (limit : Int) ∧ size > 0 then
    if _h : es = [] then EvictResult.keyErr es size
    else
      evictLoop limit newSize es.dropLast
        (size - ((es.getLast?.getD ([], (0, []))).2.2.length : Int))
  else EvictResult.done es size
termination_by es.length
decreasing_by
  have hpos : 0 < es.length := List.length_pos.mpr _h
  simp only [List.length_dropLast]
  omega

/-- Result of `HashTable.__setitem__`: success, `MemoryError` (caught by the
handler as out-of-memory), or `KeyError` from `popitem` on an empty dict.
In the error cases the exception is raised after the object was mutated in
place, so the result carries the state as left behind. -/
inductive SetResult where
  | ok (t : HashTable)
  | oom (t : HashTable)
  | keyErr (t : HashTable)
deriving DecidableEq

/-- The store state after a `__setitem__` call, whatever its outcome. -/
def SetResult.state : SetResult → HashTable
  | .ok t => t
  | .oom t => t
  | .keyErr t => t

/-- `HashTable.__setitem__(key, val)` with `val = (flags, value)`. -/
def setitem (t : HashTable) (k : Key) (v : Val) : SetResult :=
  -- if the key exists, remove it to adjust size, before setting the new value
  let p :=
    match findEntry k t.entries with
    | some old => (eraseKey k t.entries, t.size - old.2.length)
    | none => (t.entries, t.size)
  let es0 := p.1
  let size0 := p.2
  let newSize : Int := v.2.length
  match t.limit with
  | none => SetResult.ok ⟨es0 ++ [(k, v)], t.limit, size0 + newSize⟩
  | some limit =>
    match evictLoop limit newSize es0 size0 with
    | EvictResult.keyErr es1 size1 => SetResult.keyErr ⟨es1, t.limit, size1⟩
    | EvictResult.done es1 size1 =>
      -- if still not enough space, then throw an error
      if newSize + size1 > (limit : Int) then
        SetResult.oom ⟨es1, t.limit, size1⟩
      else
        SetResult.ok ⟨es1 ++ [(k, v)], t.limit, size1 + newSize⟩

/-- `HashTable.__getitem__(key)`: the lookup result (`none` = `KeyError`)
together with the store state afterwards. -/
def getitem (t : HashTable) (k : Key) : Option Val × HashTable :=
  (findEntry k t.entries, t)

/-- The store as `__main__` constructs it:
`HashTable(limit=options.limit or None)`, so a configured limit of `0`
becomes `None`; `__init__` starts with an empty dict and `size = 0`. -/
def mkTable (limit : Nat) : HashTable :=
  { entries := [], limit := if limit = 0 then none else some limit, size := 0 }

/-- The `size` bookkeeping invariant: `size` equals the sum of the stored
value lengths. -/
def sizeInv (t : HashTable) : Prop := t.size = sumLen t.entries

instance (t : HashTable) : Decidable (sizeInv t) := by
  unfold sizeInv; exact inferInstance

/-- Each key is bound at most once (always true of a Python dict). -/
def keysNodup (t : HashTable) : Prop := (t.entries.map Prod.fst).Nodup

instance (t : HashTable) : Decidable (keysNodup t) := by
  unfold keysNodup; exact inferInstance

/-! ## The request handler (`class RequestHandler`) -/

/-- Bytes of an ASCII response text. -/
def strBytes (s : String) : List Byte := s.toList.map Char.toNat

def invalidArguments : List Byte := strBytes ("invalid arguments")

def keyNotFound : List Byte := strBytes ("key not found")

def valueTooLargeText : List Byte := strBytes ("value too large")

def outOfMemoryText : List Byte := strBytes ("out of memory")

def unknownCommandText : List Byte :=
  strBytes ("unknown command, only get and set allowed")

/-- `struct.unpack('!II', extra)`: requires exactly 8 bytes, otherwise
`struct.error` is raised. -/
def unpackTwoU32 (extra : List Byte) : Except Unit (Nat × Nat) :=
  if extra.length = 8 then
    Except.ok
      (((extra.getD 0 0 * 256 + extra.getD 1 0) * 256 + extra.getD 2 0) * 256
         + extra.getD 3 0,
       ((extra.getD 4 0 * 256 + extra.getD 5 0) * 256 + extra.getD 6 0) * 256
         + extra.getD 7 0)
  else Except.error ()

/-- `RequestHandler.do_get`: populate the response for a Get request.  The
store is not changed (`getitem` returns it unchanged). -/
def do_get (t : HashTable) (req : Message) : Message :=
  if req.extra ≠ [] ∨ req.value ≠ [] ∨ req.key = [] then
    { Message.init with status := 0x04, value := invalidArguments }
  else
    match (getitem t req.key).1 with
    | some fv =>
      { Message.init with extra := pack32 fv.1, status := 0, value := fv.2 }
    | none => { Message.init with status := 0x01, value := keyNotFound }

/-- `RequestHandler.do_set`: populate the response for a Set request.
`Except.error` is an exception other than `MemoryError` escaping `do_set`
(a `struct.error` from unpacking the extras, or a `KeyError` from
`popitem`); it carries the store state at that point. -/
def do_set (t : HashTable) (req : Message) :
    Except HashTable (Message × HashTable) :=
  if req.extra = [] ∨ req.key = [] ∨ req.value = [] then
    Except.ok ({ Message.init with status := 0x04, value := invalidArguments }, t)
  else if req.value.length > 1000000 then
    Except.ok ({ Message.init with status := 0x03, value := valueTooLargeText }, t)
  else
    match unpackTwoU32 req.extra with
    | Except.error _ => Except.error t
    | Except.ok fe =>
      match setitem t req.key (fe.1, req.value) with
      | SetResult.ok t' => Except.ok (Message.init, t')
      | SetResult.oom t' =>
        Except.ok ({ Message.init with status := 0x82, value := outOfMemoryText }, t')
      | SetResult.keyErr t' => Except.error t'

/-- One iteration of the `RequestHandler.handle` loop on an already-decoded
request: dispatch, then fill in the response header fields.  `Except.error`
means an exception was caught by the `except:` around the loop, so no
response is written and the connection is closed; it carries the store state
at that point. -/
def handleOne (t : HashTable) (req : Message) :
    Except HashTable (Message × HashTable) :=
  if req.magic ≠ 0x80 then Except.error t  -- 'received a response'
  else
    match
      (if req.opcode = 0x00 then Except.ok (do_get t req, t)
       else if req.opcode = 0x01 then do_set t req
       else Except.ok
         ({ Message.init with status := 0x81, value := unknownCommandText }, t)
        : Except HashTable (Message × HashTable))
    with
    | Except.error t' => Except.error t'
    | Except.ok rt =>
      Except.ok
        ({ rt.1 with
            magic := 0x81,
            opcode := req.opcode,
            opaq := req.opaq,
            extralen := rt.1.extra.length,
            keylen := rt.1.key.length,
            bodylen := rt.1.extra.length + rt.1.key.length + rt.1.value.length },
         rt.2)

/-! ## Helper lemmas about the store -/

theorem sumLen_nil : sumLen [] = 0 := rfl

theorem sumLen_cons (e : Key × Val) (es : List (Key × Val)) :
    sumLen (e :: es) = (e.2.2.length : Int) + sumLen es := rfl

theorem sumLen_append (l₁ l₂ : List (Key × Val)) :
    sumLen (l₁ ++ l₂) = sumLen l₁ + sumLen l₂ := by
  induction l₁ with
  | nil => simp [sumLen]
  | cons x t ih =>
    rw [List.cons_append, sumLen_cons, sumLen_cons, ih]
    ring

theorem sumLen_nonneg (es : List (Key × Val)) : 0 ≤ sumLen es := by
  induction es with
  | nil => simp [sumLen]
  | cons x t ih =>
    rw [sumLen_cons]
    have := Int.natCast_nonneg x.2.2.length
    omega

/-- A non-empty list is its `dropLast` plus its last element (the pair that
`popitem` removes and returns). -/
theorem eq_dropLast_append (es : List (Key × Val)) (h : es ≠ []) :
    es = es.dropLast ++ [es.getLast?.getD ([], (0, []))] := by
  induction es with
  | nil => exact absurd rfl h
  | cons x t ih =>
    cases t with
    | nil => simp
    | cons y t' =>
      rw [List.dropLast_cons₂, List.getLast?_cons_cons, List.cons_append]
      exact congrArg (List.cons x) (ih (by simp))

theorem sumLen_dropLast (es : List (Key × Val)) (h : es ≠ []) :
    sumLen es = sumLen es.dropLast
      + ((es.getLast?.getD ([], (0, []))).2.2.length : Int) := by
  conv_lhs => rw [eq_dropLast_append es h]
  rw [sumLen_append, sumLen_cons, sumLen_nil]
  ring

/-- If the bookkeeping is accurate going in, the eviction loop terminates
normally (never `KeyError`) and the bookkeeping is accurate coming out. -/
theorem evictLoop_inv (limit : Nat) (ns : Int) :
    ∀ es size, size = sumLen es →
      ∃ es1, evictLoop limit ns es size = EvictResult.done es1 (sumLen es1) := by
  intro es size
  induction es, size using evictLoop.induct limit ns with
  | case1 size hcond =>
    intro hs
    exfalso
    rw [sumLen_nil] at hs
    omega
  | case2 es size hcond hne ih =>
    intro hs
    rw [evictLoop, if_pos hcond, dif_neg hne]
    apply ih
    have := sumLen_dropLast es hne
    omega
  | case3 es size hcond =>
    intro hs
    rw [evictLoop, if_neg hcond]
    exact ⟨es, by rw [hs]⟩

/-- Whenever the eviction loop exits normally, the surviving entries are an
initial segment (the oldest ones, since `popitem` removes from the newest
end) of the entries it started from, the running size only decreased, and
the loop condition no longer holds. -/
theorem evictLoop_done_shape (limit : Nat) (ns : Int) :
    ∀ es size es1 size1,
      evictLoop limit ns es size = EvictResult.done es1 size1 →
      (∃ rest, es = es1 ++ rest) ∧ size1 ≤ size ∧
        ¬(ns + size1 > (limit : Int) ∧ size1 > 0) := by
  intro es size
  induction es, size using evictLoop.induct limit ns with
  | case1 size hcond =>
    intro es1 size1 hdone
    rw [evictLoop, if_pos hcond, dif_pos rfl] at hdone
    exact absurd hdone (by simp)
  | case2 es size hcond hne ih =>
    intro es1 size1 hdone
    rw [evictLoop, if_pos hcond, dif_neg hne] at hdone
    obtain ⟨⟨rest, hrest⟩, hle, hnc⟩ := ih es1 size1 hdone
    refine ⟨⟨rest ++ [es.getLast?.getD ([], (0, []))], ?_⟩, ?_, hnc⟩
    · conv_lhs => rw [eq_dropLast_append es hne]
      rw [hrest, List.append_assoc]
    · have := Int.natCast_nonneg (es.getLast?.getD ([], (0, []))).2.2.length
      omega
  | case3 es size hcond =>
    intro es1 size1 hdone
    rw [evictLoop, if_neg hcond] at hdone
    cases hdone
    exact ⟨⟨[], by simp⟩, le_refl _, hcond⟩

theorem findEntry_none_eraseKey (k : Key) :
    ∀ es, findEntry k es = none → eraseKey k es = es := by
  intro es
  induction es with
  | nil => intro _; rfl
  | cons x t ih =>
    intro h
    obtain ⟨k', v⟩ := x
    rw [findEntry] at h
    rw [eraseKey]
    by_cases hk : k' = k
    · rw [if_pos hk] at h; exact absurd h (by simp)
    · rw [if_neg hk] at h
      rw [if_neg hk, ih h]

theorem sumLen_eraseKey (k : Key) :
    ∀ es old, findEntry k es = some old →
      sumLen (eraseKey k es) = sumLen es - (old.2.length : Int) := by
  intro es
  induction es with
  | nil => intro old h; exact absurd h (by simp [findEntry])
  | cons x t ih =>
    intro old h
    obtain ⟨k', v⟩ := x
    rw [findEntry] at h
    rw [eraseKey]
    by_cases hk : k' = k
    · rw [if_pos hk] at h
      rw [if_pos hk]
      cases h
      rw [sumLen_cons]
      ring
    · rw [if_neg hk] at h
      rw [if_neg hk, sumLen_cons, sumLen_cons, ih old h]
      ring

theorem findEntry_eq_none_of_not_mem (k : Key) :
    ∀ es, k ∉ es.map Prod.fst → findEntry k es = none := by
  intro es
  induction es with
  | nil => intro _; rfl
  | cons x t ih =>
    intro h
    obtain ⟨k', v⟩ := x
    rw [List.map_cons, List.mem_cons] at h
    push_neg at h
    rw [findEntry, if_neg (fun he => h.1 he.symm)]
    exact ih h.2

theorem findEntry_eraseKey_self (k : Key) :
    ∀ es, (es.map Prod.fst).Nodup → findEntry k (eraseKey k es) = none := by
  intro es
  induction es with
  | nil => intro _; rfl
  | cons x t ih =>
    intro h
    obtain ⟨k', v⟩ := x
    rw [List.map_cons, List.nodup_cons] at h
    rw [eraseKey]
    by_cases hk : k' = k
    · rw [if_pos hk]
      exact findEntry_eq_none_of_not_mem k t (hk ▸ h.1)
    · rw [if_neg hk, findEntry, if_neg hk]
      exact ih h.2

theorem findEntry_append_none (k : Key) (l₁ l₂ : List (Key × Val))
    (h : findEntry k (l₁ ++ l₂) = none) : findEntry k l₁ = none := by
  induction l₁ with
  | nil => rfl
  | cons x t ih =>
    obtain ⟨k', v⟩ := x
    rw [List.cons_append, findEntry] at h
    rw [findEntry]
    by_cases hk : k' = k
    · rw [if_pos hk] at h; exact absurd h (by simp)
    · rw [if_neg hk] at h
      rw [if_neg hk]
      exact ih h

/-- The running size right after `__setitem__`'s first step (removing the
key's previous entry, if any). -/
def stepSize (t : HashTable) (k : Key) : Int :=
  match findEntry k t.entries with
  | some old => t.size - (old.2.length : Int)
  | none => t.size

/-- `__setitem__` with `limit=None` never evicts and never fails: it just
replaces the key's binding at the newest position. -/
theorem setitem_limit_none (t : HashTable) (k : Key) (v : Val)
    (h : t.limit = none) :
    setitem t k v =
      SetResult.ok ⟨eraseKey k t.entries ++ [(k, v)], none,
        stepSize t k + (v.2.length : Int)⟩ := by
  rw [setitem, stepSize, h]
  cases hf : findEntry k t.entries with
  | none => rw [findEntry_none_eraseKey k t.entries hf]
  | some old => rfl

/-- `__setitem__` with a set limit: first step, then the eviction loop, then
the limit check, then the insertion. -/
theorem setitem_limit_some (t : HashTable) (k : Key) (v : Val) (lim : Nat)
    (h : t.limit = some lim) :
    setitem t k v =
      match evictLoop lim (v.2.length : Int) (eraseKey k t.entries)
          (stepSize t k) with
      | EvictResult.keyErr es1 size1 =>
        SetResult.keyErr ⟨es1, some lim, size1⟩
      | EvictResult.done es1 size1 =>
        if (v.2.length : Int) + size1 > (lim : Int) then
          SetResult.oom ⟨es1, some lim, size1⟩
        else
          SetResult.ok ⟨es1 ++ [(k, v)], some lim,
            size1 + (v.2.length : Int)⟩ := by
  rw [setitem, stepSize, h]
  cases hf : findEntry k t.entries with
  | none => rw [findEntry_none_eraseKey k t.entries hf]
  | some old => rfl

/-- The running size only shrinks in step 1, by the removed entry's length. -/
theorem stepSize_sumLen (t : HashTable) (k : Key) (hinv : sizeInv t) :
    stepSize t k = sumLen (eraseKey k t.entries) := by
  rw [stepSize]
  cases hf : findEntry k t.entries with
  | none => rw [findEntry_none_eraseKey k t.entries hf]; exact hinv
  | some old => rw [sumLen_eraseKey k t.entries old hf, hinv]

/-! ## The claims -/

/-- C1 (the code refutes the claimed FIFO order): with `limit = 6`, after
`SET a=111`, `SET b=222`, `SET c=33`, the eviction triggered by the third
put removes `b` — the most recently inserted of the two entries — and keeps
`a`, the oldest.  `collections.OrderedDict.popitem(self)` defaults to
`last=True` (LIFO), so the loop evicts newest-first even though the code's
own docstring and comments say it removes the oldest items. -/
theorem put_eviction_evicts_newest_not_oldest :
    (setitem ((setitem ((setitem (mkTable 6) [97] (0, [49, 49, 49])).state)
        [98] (0, [50, 50, 50])).state) [99] (0, [51, 51])).state
      = ⟨[([97], (0, [49, 49, 49])), ([99], (0, [51, 51]))], some 6, 5⟩ ∧
    findEntry [98] [([97], (0, [49, 49, 49])), ([99], (0, [51, 51]))]
      = none ∧
    findEntry [97] [([97], (0, [49, 49, 49])), ([99], (0, [51, 51]))]
      = some (0, [49, 49, 49]) := by
  refine ⟨?_, by decide, by decide⟩
  simp [mkTable, setitem, findEntry, evictLoop, SetResult.state]

/-- C3: a store constructed with configured `limit = 0` (which `__main__`
maps to `limit=None`, the unlimited case) never evicts on `put` and never
fails with `MemoryError`: the put succeeds and the new entries are exactly
the old ones (minus any old binding of the same key) plus the new pair at
the newest position. -/
theorem limit_zero_put_unlimited (t : HashTable) (k : Key) (v : Val)
    (h : t.limit = (mkTable 0).limit) :
    ∃ t', setitem t k v = SetResult.ok t' ∧
      t'.entries = eraseKey k t.entries ++ [(k, v)] ∧ t'.limit = t.limit := by
  have hn : t.limit = none := by rw [h]; rfl
  exact ⟨_, setitem_limit_none t k v hn, rfl, by rw [hn]⟩

theorem limit_zero_put_unlimited_witness :
    (⟨[([97], (0, [120]))], none, 1⟩ : HashTable).limit = (mkTable 0).limit ∧
    ∃ t', setitem ⟨[([97], (0, [120]))], none, 1⟩ [98] (0, [121, 121])
        = SetResult.ok t' ∧
      t'.entries
        = eraseKey [98] [([97], (0, [120]))] ++ [([98], (0, [121, 121]))] ∧
      t'.limit = (⟨[([97], (0, [120]))], none, 1⟩ : HashTable).limit :=
  ⟨by decide,
   limit_zero_put_unlimited ⟨[([97], (0, [120]))], none, 1⟩ [98] (0, [121, 121])
     (by decide)⟩

/-- C4: whenever the limit is set and `put` succeeds, the resulting
`current_bytes` is within the limit. -/
theorem put_ok_within_limit (t : HashTable) (k : Key) (v : Val) (lim : Nat)
    (t' : HashTable) (hlim : t.limit = some lim)
    (hok : setitem t k v = SetResult.ok t') : t'.size ≤ (lim : Int) := by
  rw [setitem_limit_some t k v lim hlim] at hok
  cases hev : evictLoop lim (v.2.length : Int) (eraseKey k t.entries)
      (stepSize t k) with
  | keyErr es1 size1 =>
    rw [hev] at hok
    dsimp only [] at hok
    exact absurd hok (by simp)
  | done es1 size1 =>
    rw [hev] at hok
    dsimp only [] at hok
    by_cases hc : (v.2.length : Int) + size1 > (lim : Int)
    · rw [if_pos hc] at hok; exact absurd hok (by simp)
    · rw [if_neg hc] at hok
      cases hok
      show size1 + (v.2.length : Int) ≤ (lim : Int)
      omega

theorem put_ok_within_limit_witness :
    (⟨[], some 5, 0⟩ : HashTable).limit = some 5 ∧
    setitem ⟨[], some 5, 0⟩ [97] (0, [120, 120])
      = SetResult.ok ⟨[([97], (0, [120, 120]))], some 5, 2⟩ ∧
    (⟨[([97], (0, [120, 120]))], some 5, 2⟩ : HashTable).size ≤ (5 : Int) :=
  ⟨rfl, by simp [setitem, findEntry, evictLoop],
   put_ok_within_limit ⟨[], some 5, 0⟩ [97] (0, [120, 120]) 5
     ⟨[([97], (0, [120, 120]))], some 5, 2⟩ rfl
     (by simp [setitem, findEntry, evictLoop])⟩

/-- C5: `current_bytes == Σ len(entry.value)` holds initially and is
preserved by every `put`, which moreover either succeeds or fails with
`MemoryError` (never with the `KeyError` that an inaccurate size could
cause): the invariant holds at every externally observable state. -/
theorem size_eq_sum_preserved :
    (∀ lim, sizeInv (mkTable lim)) ∧
    ∀ t k v, sizeInv t →
      ∃ t', (setitem t k v = SetResult.ok t' ∨
             setitem t k v = SetResult.oom t') ∧ sizeInv t' := by
  constructor
  · intro lim; rfl
  · intro t k v hinv
    cases hl : t.limit with
    | none =>
      refine ⟨_, Or.inl (setitem_limit_none t k v hl), ?_⟩
      show stepSize t k + (v.2.length : Int)
        = sumLen (eraseKey k t.entries ++ [(k, v)])
      rw [sumLen_append, sumLen_cons, sumLen_nil, stepSize_sumLen t k hinv]
      ring
    | some lim =>
      have hstep : stepSize t k = sumLen (eraseKey k t.entries) :=
        stepSize_sumLen t k hinv
      obtain ⟨es1, hev⟩ := evictLoop_inv lim (v.2.length : Int)
        (eraseKey k t.entries) (stepSize t k) hstep
      rw [setitem_limit_some t k v lim hl, hev]
      dsimp only []
      by_cases hc : (v.2.length : Int) + sumLen es1 > (lim : Int)
      · rw [if_pos hc]
        exact ⟨_, Or.inr rfl, rfl⟩
      · rw [if_neg hc]
        refine ⟨_, Or.inl rfl, ?_⟩
        show sumLen es1 + (v.2.length : Int) = sumLen (es1 ++ [(k, v)])
        rw [sumLen_append, sumLen_cons, sumLen_nil]
        ring

theorem size_eq_sum_preserved_witness :
    sizeInv (mkTable 2) ∧
    ∃ t', (setitem (mkTable 2) [97] (0, [120]) = SetResult.ok t' ∨
           setitem (mkTable 2) [97] (0, [120]) = SetResult.oom t') ∧
      sizeInv t' :=
  ⟨size_eq_sum_preserved.1 2,
   size_eq_sum_preserved.2 (mkTable 2) [97] (0, [120]) (by decide)⟩

/-- C6: when `put` fails with `MemoryError`, the new entry was not inserted
(the key is absent from the resulting state), and the evictions already
performed are not rolled back: the surviving entries are an initial segment
of the pre-put entries (minus any old binding of the same key), the evicted
suffix stays removed. -/
theorem oom_evictions_not_rolled_back (t : HashTable) (k : Key) (v : Val)
    (t' : HashTable) (hnd : keysNodup t)
    (hoom : setitem t k v = SetResult.oom t') :
    findEntry k t'.entries = none ∧
      ∃ rest, eraseKey k t.entries = t'.entries ++ rest := by
  cases hl : t.limit with
  | none =>
    rw [setitem_limit_none t k v hl] at hoom
    exact absurd hoom (by simp)
  | some lim =>
    rw [setitem_limit_some t k v lim hl] at hoom
    cases hev : evictLoop lim (v.2.length : Int) (eraseKey k t.entries)
        (stepSize t k) with
    | keyErr es1 size1 =>
      rw [hev] at hoom
      dsimp only [] at hoom
      exact absurd hoom (by simp)
    | done es1 size1 =>
      rw [hev] at hoom
      dsimp only [] at hoom
      by_cases hc : (v.2.length : Int) + size1 > (lim : Int)
      · rw [if_pos hc] at hoom
        cases hoom
        obtain ⟨⟨rest, hrest⟩, -, -⟩ := evictLoop_done_shape lim
          (v.2.length : Int) (eraseKey k t.entries) (stepSize t k) es1 size1 hev
        constructor
        · show findEntry k es1 = none
          apply findEntry_append_none k es1 rest
          rw [← hrest]
          exact findEntry_eraseKey_self k t.entries hnd
        · exact ⟨rest, hrest⟩
      · rw [if_neg hc] at hoom
        exact absurd hoom (by simp)

theorem oom_evictions_not_rolled_back_witness :
    keysNodup ⟨[([97], (0, [120, 120])), ([98], (0, [121, 121]))], some 3, 4⟩ ∧
    setitem ⟨[([97], (0, [120, 120])), ([98], (0, [121, 121]))], some 3, 4⟩
        [99] (0, [122, 122, 122, 122])
      = SetResult.oom ⟨[], some 3, 0⟩ ∧
    (findEntry [99] (⟨[], some 3, 0⟩ : HashTable).entries = none ∧
      ∃ rest,
        eraseKey [99] [([97], (0, [120, 120])), ([98], (0, [121, 121]))]
          = (⟨[], some 3, 0⟩ : HashTable).entries ++ rest) :=
  ⟨by decide, by simp [setitem, findEntry, evictLoop],
   oom_evictions_not_rolled_back
     ⟨[([97], (0, [120, 120])), ([98], (0, [121, 121]))], some 3, 4⟩
     [99] (0, [122, 122, 122, 122]) ⟨[], some 3, 0⟩ (by decide)
     (by simp [setitem, findEntry, evictLoop])⟩

/-- C8: `__getitem__` never mutates the store: entries (hence both the
key-to-entry mapping and the insertion order), `size` and `limit` are all
unchanged, and the returned snapshot is just the lookup. -/
theorem get_never_mutates (t : HashTable) (k : Key) :
    (getitem t k).2.entries = t.entries ∧ (getitem t k).2.size = t.size ∧
      (getitem t k).2.limit = t.limit ∧
      (getitem t k).1 = findEntry k t.entries :=
  ⟨rfl, rfl, rfl, rfl⟩

/-- C9: if the key was present and the put then fails with `MemoryError`,
the previous entry is gone: the key is absent from the resulting state and
the resulting `current_bytes` no longer includes the old value's length. -/
theorem oom_removes_previous_entry (t : HashTable) (k : Key) (v : Val)
    (oldv : Val) (t' : HashTable) (hnd : keysNodup t)
    (hfind : findEntry k t.entries = some oldv)
    (hoom : setitem t k v = SetResult.oom t') :
    findEntry k t'.entries = none ∧
      t'.size ≤ t.size - (oldv.2.length : Int) := by
  cases hl : t.limit with
  | none =>
    rw [setitem_limit_none t k v hl] at hoom
    exact absurd hoom (by simp)
  | some lim =>
    rw [setitem_limit_some t k v lim hl] at hoom
    cases hev : evictLoop lim (v.2.length : Int) (eraseKey k t.entries)
        (stepSize t k) with
    | keyErr es1 size1 =>
      rw [hev] at hoom
      dsimp only [] at hoom
      exact absurd hoom (by simp)
    | done es1 size1 =>
      rw [hev] at hoom
      dsimp only [] at hoom
      by_cases hc : (v.2.length : Int) + size1 > (lim : Int)
      · rw [if_pos hc] at hoom
        cases hoom
        obtain ⟨⟨rest, hrest⟩, hle, -⟩ := evictLoop_done_shape lim
          (v.2.length : Int) (eraseKey k t.entries) (stepSize t k) es1 size1 hev
        constructor
        · show findEntry k es1 = none
          apply findEntry_append_none k es1 rest
          rw [← hrest]
          exact findEntry_eraseKey_self k t.entries hnd
        · show size1 ≤ t.size - (oldv.2.length : Int)
          have hstep : stepSize t k = t.size - (oldv.2.length : Int) := by
            rw [stepSize, hfind]
          omega
      · rw [if_neg hc] at hoom
        exact absurd hoom (by simp)

theorem oom_removes_previous_entry_witness :
    keysNodup ⟨[([97], (0, [120, 120]))], some 2, 2⟩ ∧
    findEntry [97] [([97], (0, [120, 120]))] = some (0, [120, 120]) ∧
    setitem ⟨[([97], (0, [120, 120]))], some 2, 2⟩ [97] (0, [120, 120, 120])
      = SetResult.oom ⟨[], some 2, 0⟩ ∧
    (findEntry [97] (⟨[], some 2, 0⟩ : HashTable).entries = none ∧
      (⟨[], some 2, 0⟩ : HashTable).size
        ≤ (⟨[([97], (0, [120, 120]))], some 2, 2⟩ : HashTable).size
            - (((0 : Nat), [120, 120]).2.length : Int)) :=
  ⟨by decide, by decide, by simp [setitem, findEntry, eraseKey, evictLoop],
   oom_removes_previous_entry ⟨[([97], (0, [120, 120]))], some 2, 2⟩
     [97] (0, [120, 120, 120]) (0, [120, 120]) ⟨[], some 2, 0⟩
     (by decide) (by decide)
     (by simp [setitem, findEntry, eraseKey, evictLoop])⟩

/-! ## Codec lemmas -/

theorem list_eq_of_length_four (l : List Byte) (h : l.length = 4) :
    ∃ a b c d, l = [a, b, c, d] := by
  match l, h with
  | [a, b, c, d], _ => exact ⟨a, b, c, d, rfl⟩

theorem list_eq_of_length_eight (l : List Byte) (h : l.length = 8) :
    ∃ a b c d e f g j, l = [a, b, c, d, e, f, g, j] := by
  match l, h with
  | [a, b, c, d, e, f, g, j], _ => exact ⟨a, b, c, d, e, f, g, j, rfl⟩

/-- Parsing a stream that starts with a packed header followed by the extras
and key bytes: the header phase always succeeds and reproduces the fields,
leaving only the value phase, which depends on `bodylen` versus
`extralen + keylen` and on the remaining stream `tail`. -/
theorem readfrom_parts (m : Message) (tail : List Byte)
    (hmagic : m.magic = 0x80 ∨ m.magic = 0x81)
    (hkl : m.keylen = m.key.length)
    (hel : m.extralen = m.extra.length)
    (hop : m.opaq.length = 4) (hcs : m.cas.length = 8) :
    readfrom ((packHeader m ++ m.extra ++ m.key) ++ tail)
      = if m.bodylen > m.extralen + m.keylen then
          (if m.bodylen - m.extralen - m.keylen > 10000000 then
            ReadResult.err ReadErr.tooLarge
          else if (tail.take (m.bodylen - m.extralen - m.keylen)).length
              < m.bodylen - m.extralen - m.keylen then
            ReadResult.err ReadErr.bodyShort
          else
            ReadResult.ok
              ⟨m.magic, m.opcode, m.keylen, m.extralen, m.datatype, m.status,
               m.bodylen, m.opaq, m.cas, m.extra, m.key,
               tail.take (m.bodylen - m.extralen - m.keylen)⟩
              (tail.drop (m.bodylen - m.extralen - m.keylen)))
        else ReadResult.ok
          ⟨m.magic, m.opcode, m.keylen, m.extralen, m.datatype, m.status,
           m.bodylen, m.opaq, m.cas, m.extra, m.key, []⟩ tail := by
  obtain ⟨o0, o1, o2, o3, ho⟩ := list_eq_of_length_four m.opaq hop
  obtain ⟨c0, c1, c2, c3, c4, c5, c6, c7, hc⟩ :=
    list_eq_of_length_eight m.cas hcs
  have h24 : ((packHeader m ++ m.extra ++ m.key) ++ tail).take 24
      = [m.magic, m.opcode, m.keylen / 256, m.keylen % 256, m.extralen,
         m.datatype, m.status / 256, m.status % 256, m.bodylen / 16777216,
         m.bodylen / 65536 % 256, m.bodylen / 256 % 256, m.bodylen % 256,
         o0, o1, o2, o3, c0, c1, c2, c3, c4, c5, c6, c7] := by
    rw [packHeader, ho, hc]
    rfl
  have hdrop : ((packHeader m ++ m.extra ++ m.key) ++ tail).drop 24
      = (m.extra ++ m.key) ++ tail := by
    rw [packHeader, ho, hc]
    rfl
  generalize hs : (packHeader m ++ m.extra ++ m.key) ++ tail = s at h24 hdrop
  rw [readfrom, h24, hdrop]
  have hkey : m.keylen / 256 * 256 + m.keylen % 256 = m.keylen := by omega
  have hstatus : m.status / 256 * 256 + m.status % 256 = m.status := by omega
  have hbody : ((m.bodylen / 16777216 * 256 + m.bodylen / 65536 % 256) * 256
      + m.bodylen / 256 % 256) * 256 + m.bodylen % 256 = m.bodylen := by
    omega
  simp only [List.getD_cons_zero, List.getD_cons_succ, List.take_succ_cons,
    List.take_zero, List.drop_succ_cons, List.drop_zero, List.length_cons,
    List.length_nil, hkey, hstatus, hbody, List.append_assoc]
  rw [if_neg (by simp)]
  rw [if_neg (by norm_num)]
  have hextra : (if m.extralen ≠ 0 then
        List.take m.extralen (m.extra ++ (m.key ++ tail)) else [])
      = m.extra := by
    by_cases h0 : m.extralen ≠ 0
    · rw [if_pos h0, hel, List.take_left]
    · push_neg at h0
      rw [if_neg (by omega)]
      rw [h0] at hel
      exact (List.length_eq_zero.mp hel.symm).symm
  have hs2 : (if m.extralen ≠ 0 then
        List.drop m.extralen (m.extra ++ (m.key ++ tail))
      else m.extra ++ (m.key ++ tail))
      = m.key ++ tail := by
    by_cases h0 : m.extralen ≠ 0
    · rw [if_pos h0, hel, List.drop_left]
    · push_neg at h0
      rw [if_neg (by omega)]
      rw [h0] at hel
      rw [(List.length_eq_zero.mp hel.symm), List.nil_append]
  have hkeyT : (if m.keylen ≠ 0 then List.take m.keylen (m.key ++ tail)
        else []) = m.key := by
    by_cases h0 : m.keylen ≠ 0
    · rw [if_pos h0, hkl, List.take_left]
    · push_neg at h0
      rw [if_neg (by omega)]
      rw [h0] at hkl
      exact (List.length_eq_zero.mp hkl.symm).symm
  have hs3 : (if m.keylen ≠ 0 then List.drop m.keylen (m.key ++ tail)
        else m.key ++ tail) = tail := by
    by_cases h0 : m.keylen ≠ 0
    · rw [if_pos h0, hkl, List.drop_left]
    · push_neg at h0
      rw [if_neg (by omega)]
      rw [h0] at hkl
      rw [(List.length_eq_zero.mp hkl.symm), List.nil_append]
  rcases hmagic with hm | hm <;>
    rw [hm] <;>
    rw [if_neg (by norm_num), hextra] <;>
    rw [if_neg (by omega), hs2, hkeyT] <;>
    rw [if_neg (by omega), hs3, ho, hc]

/-- C7: decoding the byte stream produced by encoding a well-formed message
yields exactly the message back, consuming the whole stream. -/
theorem decode_encode_roundtrip (m : Message) (h : Wellformed m) :
    readfrom (writeto m) = ReadResult.ok m [] := by
  obtain ⟨mg, oc, kl, el, dt, st, bl, op, cs, ex, ky, vl⟩ := m
  obtain ⟨hmagic, -, hkl, -, hel, -, -, -, hblen, -, hcap, hop, hcs⟩ := h
  rw [writeto, readfrom_parts _ _ hmagic hkl hel hop hcs]
  dsimp only [] at hblen hcap ⊢
  cases vl with
  | nil =>
    rw [List.length_nil] at hblen
    rw [if_neg (by omega)]
  | cons b bs =>
    rw [List.length_cons] at hblen hcap
    rw [if_pos (by omega)]
    have hvlen : bl - el - kl = (b :: bs).length := by
      rw [List.length_cons]; omega
    rw [hvlen, if_neg (by rw [List.length_cons]; omega), List.take_length]
    rw [if_neg (by omega), List.drop_length]

theorem decode_encode_roundtrip_witness :
    Wellformed ⟨0x80, 1, 3, 8, 0, 0, 13, [9, 9, 9, 9],
      [0, 0, 0, 0, 0, 0, 0, 0], [1, 2, 3, 4, 5, 6, 7, 8],
      [107, 101, 121], [10, 20]⟩ ∧
    readfrom (writeto ⟨0x80, 1, 3, 8, 0, 0, 13, [9, 9, 9, 9],
        [0, 0, 0, 0, 0, 0, 0, 0], [1, 2, 3, 4, 5, 6, 7, 8],
        [107, 101, 121], [10, 20]⟩)
      = ReadResult.ok ⟨0x80, 1, 3, 8, 0, 0, 13, [9, 9, 9, 9],
          [0, 0, 0, 0, 0, 0, 0, 0], [1, 2, 3, 4, 5, 6, 7, 8],
          [107, 101, 121], [10, 20]⟩ [] :=
  ⟨by decide, decode_encode_roundtrip _ (by decide)⟩

/-- The message decoded from the C2 counterexample stream: a header with
`extras_len = 1`, `key_len = 0`, `body_len = 0`, so the computed value
length `body_len - extras_len - key_len` is negative. -/
def negMsg : Message :=
  ⟨0x80, 0, 0, 1, 0, 0, 0, [0, 0, 0, 0], [0, 0, 0, 0, 0, 0, 0, 0],
   [65], [], []⟩

/-- C2 counterexample: on a stream whose header declares
`body_len < extras_len + key_len`, `readfrom` returns a `Message` (with
empty value), not a `FramingError`: the negative-value-length check the
claim describes does not exist in the code. -/
theorem readfrom_negative_valuelen_returns_message :
    negMsg.bodylen < negMsg.extralen + negMsg.keylen ∧
    readfrom [0x80, 0, 0, 0, 1, 0, 0, 0, 0, 0, 0, 0,
              0, 0, 0, 0, 0, 0, 0, 0, 0, 0, 0, 0, 65]
      = ReadResult.ok negMsg [] :=
  ⟨by decide, by decide⟩

/-- Header-field consistency for the negative-value-length scenario: like
`Wellformed` but with `body_len < extras_len + key_len` (and therefore no
value bytes on the wire: `value = ''`). -/
def WellformedNeg (m : Message) : Prop :=
  (m.magic = 0x80 ∨ m.magic = 0x81) ∧ m.opcode < 256 ∧
  m.keylen = m.key.length ∧ m.keylen < 65536 ∧
  m.extralen = m.extra.length ∧ m.extralen < 256 ∧
  m.datatype < 256 ∧ m.status < 65536 ∧
  m.bodylen < m.extralen + m.keylen ∧
  m.bodylen < 4294967296 ∧
  m.value = [] ∧
  m.opaq.length = 4 ∧ m.cas.length = 8

instance (m : Message) : Decidable (WellformedNeg m) := by
  unfold WellformedNeg; exact inferInstance

/-- C2 (amended): for every header with `body_len < extras_len + key_len`
whose extras and key bytes are available on the stream, decode does not
return a `FramingError`: it succeeds with an empty value and reads no value
bytes (whatever follows stays unread). -/
theorem readfrom_negative_valuelen_ok (m : Message) (rest : List Byte)
    (h : WellformedNeg m) :
    readfrom (writeto m ++ rest) = ReadResult.ok m rest := by
  obtain ⟨mg, oc, kl, el, dt, st, bl, op, cs, ex, ky, vl⟩ := m
  obtain ⟨hmagic, -, hkl, -, hel, -, -, -, hneg, -, hval, hop, hcs⟩ := h
  dsimp only [] at hneg hval
  subst hval
  rw [writeto]
  dsimp only []
  rw [List.append_nil, readfrom_parts _ rest hmagic hkl hel hop hcs]
  dsimp only []
  rw [if_neg (by omega)]

theorem readfrom_negative_valuelen_ok_witness :
    WellformedNeg negMsg ∧
    readfrom (writeto negMsg ++ [7]) = ReadResult.ok negMsg [7] :=
  ⟨by decide, readfrom_negative_valuelen_ok negMsg [7] (by decide)⟩

/-- The C10 counterexample request: a SET whose extras are non-empty but
only 3 bytes, and whose key is empty. -/
def badSetRequest : Message :=
  { Message.init with
      magic := 0x80,
      opcode := 0x01,
      extra := [0, 0, 0],
      value := [1] }

/-- C10 counterexample: a SET request with non-empty, non-8-byte extras for
which the handler does send a status `0x04` (invalid arguments) response and
keeps the connection open — the empty key is checked before the extras are
unpacked, so no internal error occurs. -/
theorem set_bad_extras_empty_key_sends_invalid_args :
    badSetRequest.extra ≠ [] ∧ badSetRequest.extra.length ≠ 8 ∧
    handleOne (mkTable 0) badSetRequest
      = Except.ok
          ({ Message.init with
              magic := 0x81,
              opcode := 0x01,
              status := 0x04,
              value := invalidArguments,
              bodylen := 17 }, mkTable 0) :=
  ⟨by decide, by decide, by rfl⟩

/-- C10 (amended): for every SET request whose extras are non-empty but not
exactly 8 bytes long and whose key and value are non-empty with the value
within the 1,000,000-byte cap, the handler does not send any response — in
particular no status 0x04 — because `struct.unpack('!II', extra)` raises an
internal error; the connection is closed with the store untouched. -/
theorem set_bad_extras_internal_error (t : HashTable) (req : Message)
    (hm : req.magic = 0x80) (ho : req.opcode = 0x01)
    (he : req.extra ≠ []) (hlen : req.extra.length ≠ 8)
    (hk : req.key ≠ []) (hv : req.value ≠ [])
    (hcap : req.value.length ≤ 1000000) :
    handleOne t req = Except.error t := by
  have hds : do_set t req = Except.error t := by
    rw [do_set, if_neg (by push_neg; exact ⟨he, hk, hv⟩), if_neg (by omega),
        unpackTwoU32, if_neg hlen]
  rw [handleOne, if_neg (fun hmm => hmm hm), ho]
  simp [hds]

theorem set_bad_extras_internal_error_witness :
    handleOne (mkTable 0)
      { Message.init with
          magic := 0x80,
          opcode := 0x01,
          extra := [0, 0, 0],
          key := [107],
          value := [1] }
      = Except.error (mkTable 0) :=
  set_bad_extras_internal_error (mkTable 0) _ (by decide) (by decide)
    (by decide) (by decide) (by decide) (by decide) (by decide)

end Memcached
